import Mathlib

/-!
# Verification of the regen-ledger storage-engine and decimal components

Shallow embedding of the `orm` package (primary-key encoding, index key
codecs), the group-module storage prefixes, and the `math` decimal type of
the regen-ledger repository, together with proofs of the specified
properties.  Bytes are modelled as `Nat` values (each stored byte is < 256
wherever the Go code guarantees it) and byte strings as `List Nat`; a Go
`panic` is modelled as `Option.none` / absence of a result.
-/

namespace RegenLedger

/-- Embeds `orm.AddLengthPrefix` (orm/primary_key.go): prefixes the byte
array with its single-byte length; panics (`none`) if the length exceeds
255. -/
def AddLengthPrefix (bytes : List Nat) : Option (List Nat) :=
  if bytes.length > 255 then none
  else some (bytes.length :: bytes)

/-- Embeds `orm.NullTerminatedBytes` (orm/primary_key.go): the string's
UTF-8 bytes followed by a single zero byte. -/
def NullTerminatedBytes (s : List Nat) : List Nat :=
  s ++ [0]

/-- 8-byte big-endian encoding of an unsigned 64-bit value, most
significant byte first (the layout `binary.BigEndian.PutUint64` produces). -/
def bigEndian8 (v : Nat) : List Nat :=
  [v / 2 ^ 56 % 256, v / 2 ^ 48 % 256, v / 2 ^ 40 % 256, v / 2 ^ 32 % 256,
   v / 2 ^ 24 % 256, v / 2 ^ 16 % 256, v / 2 ^ 8 % 256, v % 256]

/-- Modelled from the spec: `orm.EncodeSequence` (orm/sequence.go is not
under src/, only its callers are): "Sequence-derived RowID: 8-byte
big-endian unsigned integer". -/
def EncodeSequence (v : Nat) : List Nat :=
  bigEndian8 v

/-- Embeds `orm.Max255DynamicLengthIndexKeyCodec.BuildIndexKey`
(embedded orm source): panics (`none`) on an empty RowID, otherwise
returns ` AddLengthPrefix searchableKey ++ rowID` (the length-prefix call
panics when the searchable key exceeds 255 bytes). -/
def Max255BuildIndexKey (searchableKey rowID : List Nat) : Option (List Nat) :=
  if rowID.length = 0 then none
  else
    match AddLengthPrefix searchableKey with
    | none => none
    | some pre => some (pre ++ rowID)

/-- Embeds `orm.Max255DynamicLengthIndexKeyCodec.StripRowID`: reads the
first byte as the searchable-key length and returns everything after it;
an out-of-range slice is a panic (`none`). -/
def Max255StripRowID (persistentIndexKey : List Nat) : Option (List Nat) :=
  match persistentIndexKey with
  | [] => none
  | l :: rest => if l ≤ rest.length then some (rest.drop l) else none

/-- Embeds `orm.FixLengthIndexKeyCodec.BuildIndexKey`: panics (`none`) on
an empty RowID or one longer than the declared `rowIDLength`; otherwise the
result buffer of size `searchableKey.length + rowIDLength` holds the
searchable key, the RowID, and trailing zero bytes from `make`. -/
def FixBuildIndexKey (rowIDLength : Nat) (searchableKey rowID : List Nat) :
    Option (List Nat) :=
  if rowID.length = 0 then none
  else if rowID.length > rowIDLength then none
  else some (searchableKey ++ rowID ++ List.replicate (rowIDLength - rowID.length) 0)

/-- Embeds `orm.FixLengthIndexKeyCodec.StripRowID`: returns the trailing
`rowIDLength` bytes; a negative slice index is a panic (`none`). -/
def FixStripRowID (rowIDLength : Nat) (persistentIndexKey : List Nat) :
    Option (List Nat) :=
  if rowIDLength ≤ persistentIndexKey.length then
    some (persistentIndexKey.drop (persistentIndexKey.length - rowIDLength))
  else none

/-- A runtime value passed as one element of `PrimaryKeyFields()`
(a Go `interface{}`): the types the `orm` code switches on (`[]byte`,
`string` as its UTF-8 bytes, `uint64`), plus `uint32` and a catch-all for
every other runtime type, which reach the `default` branch of
`primaryKeyFieldBytes`. -/
inductive PKField where
  | bytes (b : List Nat)
  | str (s : List Nat)
  | u64 (v : Nat)
  | u32 (v : Nat)
  | other
deriving DecidableEq

/-- Embeds `orm.primaryKeyFieldBytes` (orm/primary_key.go): the type
switch over `[]byte`, `string` and `uint64`; the `default` branch panics
(`none`).  A `uint32` value is not matched by any case and panics. -/
def primaryKeyFieldBytes (field : PKField) : Option (List Nat) :=
  match field with
  | .bytes b => AddLengthPrefix b
  | .str s => some (NullTerminatedBytes s)
  | .u64 v => some (EncodeSequence v)
  | .u32 _ => none
  | .other => none

/-- Embeds `orm.buildPrimaryKey` (orm/primary_key.go): encodes every field
with `primaryKeyFieldBytes` and concatenates the encodings in declared
field order; a panic in any field encoding propagates (`none`). -/
def buildPrimaryKey (fields : List PKField) : Option (List Nat) :=
  match fields with
  | [] => some []
  | f :: fs =>
    match primaryKeyFieldBytes f, buildPrimaryKey fs with
    | some b, some rest => some (b ++ rest)
    | _, _ => none

/-- The runtime-type tag of a primary-key field (which case of the Go type
switch it falls into). -/
def fieldKind (field : PKField) : Nat :=
  match field with
  | .bytes _ => 0
  | .str _ => 1
  | .u64 _ => 2
  | .u32 _ => 3
  | .other => 4

/-- The validity condition the claims place on a primary-key field: a byte
string of at most 255 bytes, a string not containing the NUL byte, or an
unsigned 64-bit integer. -/
def validField (field : PKField) : Bool :=
  match field with
  | .bytes b => b.length ≤ 255
  | .str s => !s.contains 0
  | .u64 v => v < 2 ^ 64
  | .u32 _ => false
  | .other => false

/-- Byte-lexicographic strict order on byte strings, the order in which
the underlying key-value store iterates keys (`bytes.Compare < 0`). -/
def lexLt (x y : List Nat) : Bool :=
  match x, y with
  | _, [] => false
  | [], _ :: _ => true
  | a :: as, b :: bs => if a < b then true else if a = b then lexLt as bs else false

/-! Storage prefixes of the group module (x/group/server/server.go). -/

def GroupTablePrefix : Nat := 0x0
def GroupTableSeqPrefix : Nat := 0x1
def GroupByAdminIndexPrefix : Nat := 0x2
def GroupMemberTablePrefix : Nat := 0x10
def GroupMemberByGroupIndexPrefix : Nat := 0x11
def GroupMemberByMemberIndexPrefix : Nat := 0x12
def GroupAccountTablePrefix : Nat := 0x20
def GroupAccountTableSeqPrefix : Nat := 0x21
def GroupAccountByGroupIndexPrefix : Nat := 0x22
def GroupAccountByAdminIndexPrefix : Nat := 0x23
def ProposalTablePrefix : Nat := 0x30
def ProposalTableSeqPrefix : Nat := 0x31
def ProposalByGroupAccountIndexPrefix : Nat := 0x32
def ProposalByProposerIndexPrefix : Nat := 0x33
def VoteTablePrefix : Nat := 0x40
def VoteByProposalIndexPrefix : Nat := 0x41
def VoteByVoterIndexPrefix : Nat := 0x42

/-- The complete set of single-byte storage prefixes the group module
declares for its tables, sequences and secondary indexes. -/
def groupModulePrefixes : List Nat :=
  [ GroupTablePrefix, GroupTableSeqPrefix, GroupByAdminIndexPrefix,
    GroupMemberTablePrefix, GroupMemberByGroupIndexPrefix,
    GroupMemberByMemberIndexPrefix,
    GroupAccountTablePrefix, GroupAccountTableSeqPrefix,
    GroupAccountByGroupIndexPrefix, GroupAccountByAdminIndexPrefix,
    ProposalTablePrefix, ProposalTableSeqPrefix,
    ProposalByGroupAccountIndexPrefix, ProposalByProposerIndexPrefix,
    VoteTablePrefix, VoteByProposalIndexPrefix, VoteByVoterIndexPrefix ]

/-- Modelled from the spec: `orm.Sequence.next` (orm/sequence.go is not
under src/): "reads current persisted value (0 if absent), computes
`value+1`, persists it, returns it".  The state is the persisted value at
the sequence's storage key (`none` when absent); the result is the
returned value paired with the new persisted state. -/
def seqNext (s : Option Nat) : Nat × Option Nat :=
  let v := (match s with | none => 0 | some v => v) + 1
  (v, some v)

/-- The list of values returned by `n` successive `Sequence.next()` calls
starting from persisted state `s`, threading the persisted state through
the calls. -/
def seqRun (s : Option Nat) (n : Nat) : List Nat :=
  match n with
  | 0 => []
  | n + 1 => (seqNext s).1 :: seqRun (seqNext s).2 n

/-- Modelled from the spec: `orm.assertCorrectType` (orm/table.go is not
under src/, only its caller `PrimaryKeyTable.Contains` is): returns an
error (`none`) exactly when the object's concrete runtime type differs
from the table's declared model type, `some ()` otherwise.  Runtime types
are abstracted as tags. -/
def assertCorrectType (modelType objType : Nat) : Option Unit :=
  if objType = modelType then some () else none

/-- Embeds `orm.PrimaryKeyTable.Contains` (orm/primary_key.go): if
`assertCorrectType` errors, return `false`; otherwise return whether the
table has a row under the object's primary-key bytes.  The table's rows
are abstracted as the list of row keys present, with `Has` as list
membership. -/
def Contains (modelType : Nat) (rows : List (List Nat))
    (objType : Nat) (objKey : List Nat) : Bool :=
  match assertCorrectType modelType objType with
  | none => false
  | some _ => rows.contains objKey

/-- Modelled from the spec: the `math.Dec` decimal value (types/math
dec.go is not under src/, only its test file is): "a sign, an unscaled
integer magnitude of unbounded precision, and an implied decimal point
position".  The represented number is `coeff / 10 ^ scale`. -/
structure Dec where
  coeff : Int
  scale : Nat
deriving DecidableEq

/-- The exact rational value a `Dec` represents. -/
def Dec.val (d : Dec) : ℚ :=
  (d.coeff : ℚ) / 10 ^ d.scale

/-- Decimal digit test on a character. -/
def isDigit (c : Char) : Bool :=
  48 ≤ c.toNat && c.toNat ≤ 57

/-- The natural number denoted by a list of decimal digit characters. -/
def digitsToNat (l : List Char) : Nat :=
  l.foldl (fun acc c => acc * 10 + (c.toNat - 48)) 0

/-- Modelled from the spec: the unsigned part of the decimal text format,
"digits, optional `.` followed by digits; no exponent notation accepted".
Returns the unscaled magnitude and the count of fractional digits. -/
def parseUnsigned (l : List Char) : Option (Nat × Nat) :=
  let ip := l.takeWhile isDigit
  if ip.isEmpty then none
  else
    match l.drop ip.length with
    | [] => some (digitsToNat ip, 0)
    | c :: frac =>
      if c = '.' ∧ ¬frac.isEmpty ∧ frac.all isDigit then
        some (digitsToNat (ip ++ frac), frac.length)
      else none

/-- Modelled from the spec: `math.NewDecFromString` (`parse`): "optional
leading `-`, digits, optional `.` followed by digits"; any syntactic
violation fails with a typed parse error (`none`). -/
def NewDecFromString (s : String) : Option Dec :=
  match s.data with
  | '-' :: rest => (parseUnsigned rest).map (fun p => ⟨-(p.1 : Int), p.2⟩)
  | l => (parseUnsigned l).map (fun p => ⟨(p.1 : Int), p.2⟩)

/-- Modelled from the spec: exact decimal addition — align the two
operands on the larger fractional-digit count and add the unscaled
values; no rounding. -/
def Dec.add (x y : Dec) : Dec :=
  ⟨x.coeff * 10 ^ (max x.scale y.scale - x.scale)
    + y.coeff * 10 ^ (max x.scale y.scale - y.scale), max x.scale y.scale⟩

/-- Modelled from the spec: exact decimal subtraction. -/
def Dec.sub (x y : Dec) : Dec :=
  ⟨x.coeff * 10 ^ (max x.scale y.scale - x.scale)
    - y.coeff * 10 ^ (max x.scale y.scale - y.scale), max x.scale y.scale⟩

/-- Modelled from the spec: numeric-value equality of two decimals
(`1.0` = `1.00`), decided by cross-multiplication. -/
def Dec.isEqual (x y : Dec) : Bool :=
  x.coeff * 10 ^ y.scale == y.coeff * 10 ^ x.scale

/-- Modelled from the spec: numeric strict order on decimals, decided by
cross-multiplication (`Cmp(x,y) == -1`). -/
def Dec.ltb (x y : Dec) : Bool :=
  x.coeff * 10 ^ y.scale < y.coeff * 10 ^ x.scale

/-- The typed error domain of the balance-safe helpers: the
insufficient-funds error is a distinguished value, distinct from the
generic invalid-request arithmetic error. -/
inductive DecErr where
  | insufficientBalance
  | invalidRequest
deriving DecidableEq

/-- Modelled from the spec: `math.SafeSubBalance` — "fails with an
insufficient-funds error if `a < b`", otherwise returns the exact
difference. -/
def SafeSubBalance (x y : Dec) : Except DecErr Dec :=
  if Dec.ltb x y then .error .insufficientBalance else .ok (Dec.sub x y)

/-! ## Helper lemmas -/

lemma lexLt_irrefl (x : List Nat) : lexLt x x = false := by
  induction x with
  | nil => rfl
  | cons a as ih => simp [lexLt, ih]

lemma lexLt_asymm {x y : List Nat} (h : lexLt x y = true) : lexLt y x = false := by
  induction x generalizing y with
  | nil =>
    cases y with
    | nil => simp [lexLt] at h
    | cons b bs => rfl
  | cons a as ih =>
    cases y with
    | nil => simp [lexLt] at h
    | cons b bs =>
      simp only [lexLt] at h ⊢
      rcases Nat.lt_trichotomy a b with h1 | h1 | h1
      · rw [if_neg (by omega), if_neg (by omega)]
      · subst h1
        rw [if_neg (lt_irrefl a), if_pos rfl] at h ⊢
        exact ih h
      · rw [if_neg (by omega), if_neg (by omega)] at h
        simp at h

lemma lexLt_append_same (p x y : List Nat) : lexLt (p ++ x) (p ++ y) = lexLt x y := by
  induction p with
  | nil => rfl
  | cons a ps ih => simp [lexLt, ih]

lemma lexLt_append_of_lt {x y : List Nat} (s t : List Nat) (hlen : x.length = y.length)
    (h : lexLt x y = true) : lexLt (x ++ s) (y ++ t) = true := by
  induction x generalizing y with
  | nil =>
    cases y with
    | nil => simp [lexLt] at h
    | cons b bs => simp at hlen
  | cons a as ih =>
    cases y with
    | nil => simp at hlen
    | cons b bs =>
      simp only [List.cons_append, lexLt] at h ⊢
      rcases Nat.lt_trichotomy a b with h1 | h1 | h1
      · rw [if_pos h1]
      · subst h1
        rw [if_neg (lt_irrefl a), if_pos rfl] at h ⊢
        exact ih (by simpa using hlen) h
      · rw [if_neg (by omega), if_neg (by omega)] at h
        simp at h

lemma bigEndian8_mono {v w : Nat} (hvw : v < w) (hw : w < 2 ^ 64) :
    lexLt (bigEndian8 v) (bigEndian8 w) = true := by
  simp only [bigEndian8, lexLt]
  by_cases h1 : v / 2 ^ 56 % 256 < w / 2 ^ 56 % 256
  · rw [if_pos h1]
  · have e1 : v / 2 ^ 56 % 256 = w / 2 ^ 56 % 256 := by omega
    rw [if_neg h1, if_pos e1]
    by_cases h2 : v / 2 ^ 48 % 256 < w / 2 ^ 48 % 256
    · rw [if_pos h2]
    · have e2 : v / 2 ^ 48 % 256 = w / 2 ^ 48 % 256 := by omega
      rw [if_neg h2, if_pos e2]
      by_cases h3 : v / 2 ^ 40 % 256 < w / 2 ^ 40 % 256
      · rw [if_pos h3]
      · have e3 : v / 2 ^ 40 % 256 = w / 2 ^ 40 % 256 := by omega
        rw [if_neg h3, if_pos e3]
        by_cases h4 : v / 2 ^ 32 % 256 < w / 2 ^ 32 % 256
        · rw [if_pos h4]
        · have e4 : v / 2 ^ 32 % 256 = w / 2 ^ 32 % 256 := by omega
          rw [if_neg h4, if_pos e4]
          by_cases h5 : v / 2 ^ 24 % 256 < w / 2 ^ 24 % 256
          · rw [if_pos h5]
          · have e5 : v / 2 ^ 24 % 256 = w / 2 ^ 24 % 256 := by omega
            rw [if_neg h5, if_pos e5]
            by_cases h6 : v / 2 ^ 16 % 256 < w / 2 ^ 16 % 256
            · rw [if_pos h6]
            · have e6 : v / 2 ^ 16 % 256 = w / 2 ^ 16 % 256 := by omega
              rw [if_neg h6, if_pos e6]
              by_cases h7 : v / 2 ^ 8 % 256 < w / 2 ^ 8 % 256
              · rw [if_pos h7]
              · have e7 : v / 2 ^ 8 % 256 = w / 2 ^ 8 % 256 := by omega
                rw [if_neg h7, if_pos e7]
                have h8 : v % 256 < w % 256 := by omega
                rw [if_pos h8]

lemma bigEndian8_inj {v w : Nat} (hv : v < 2 ^ 64) (hw : w < 2 ^ 64)
    (h : bigEndian8 v = bigEndian8 w) : v = w := by
  rcases Nat.lt_trichotomy v w with h1 | h1 | h1
  · have h2 := bigEndian8_mono h1 hw
    rw [h, lexLt_irrefl] at h2
    simp at h2
  · exact h1
  · have h2 := bigEndian8_mono h1 hv
    rw [h, lexLt_irrefl] at h2
    simp at h2

lemma bpk_cons (f : PKField) (fs : List PKField) :
    buildPrimaryKey (f :: fs) =
      (primaryKeyFieldBytes f).bind (fun b => (buildPrimaryKey fs).map (fun r => b ++ r)) := by
  cases hf : primaryKeyFieldBytes f <;> cases hs : buildPrimaryKey fs <;>
    simp [buildPrimaryKey, hf, hs]

lemma bpk_append (xs ys : List PKField) :
    buildPrimaryKey (xs ++ ys) =
      (buildPrimaryKey xs).bind (fun a => (buildPrimaryKey ys).map (fun b => a ++ b)) := by
  induction xs with
  | nil => cases h : buildPrimaryKey ys <;> simp [buildPrimaryKey, h]
  | cons f fs ih =>
    rw [List.cons_append, bpk_cons, bpk_cons, ih]
    cases hf : primaryKeyFieldBytes f <;> cases h1 : buildPrimaryKey fs <;>
      cases h2 : buildPrimaryKey ys <;> simp [List.append_assoc]

lemma bpk_cons_some {f : PKField} {fs : List PKField} {k : List Nat}
    (h : buildPrimaryKey (f :: fs) = some k) :
    ∃ fb rest, primaryKeyFieldBytes f = some fb ∧ buildPrimaryKey fs = some rest ∧
      k = fb ++ rest := by
  rw [bpk_cons] at h
  cases hf : primaryKeyFieldBytes f with
  | none => rw [hf] at h; simp at h
  | some fb =>
    cases hr : buildPrimaryKey fs with
    | none => rw [hf, hr] at h; simp at h
    | some rest =>
      rw [hf, hr] at h
      simp at h
      exact ⟨fb, rest, rfl, rfl, h.symm⟩

lemma nullTerminated_inj : ∀ (s1 s2 r1 r2 : List Nat), 0 ∉ s1 → 0 ∉ s2 →
    s1 ++ 0 :: r1 = s2 ++ 0 :: r2 → s1 = s2 ∧ r1 = r2 := by
  intro s1
  induction s1 with
  | nil =>
    intro s2 r1 r2 h1 h2 h
    cases s2 with
    | nil => simpa using h
    | cons b bs =>
      simp only [List.nil_append, List.cons_append, List.cons.injEq] at h
      exact absurd (h.1 ▸ List.mem_cons_self b bs) h2
  | cons a as ih =>
    intro s2 r1 r2 h1 h2 h
    cases s2 with
    | nil =>
      simp only [List.nil_append, List.cons_append, List.cons.injEq] at h
      exact absurd (h.1 ▸ List.mem_cons_self a as) h1
    | cons b bs =>
      simp only [List.cons_append, List.cons.injEq] at h
      obtain ⟨hab, hrest⟩ := h
      have h3 := ih bs r1 r2 (fun hm => h1 (List.mem_cons_of_mem a hm))
        (fun hm => h2 (List.mem_cons_of_mem b hm)) hrest
      exact ⟨by rw [hab, h3.1], h3.2⟩

lemma seqRun_getD : ∀ (n : Nat) (s : Option Nat) (k : Nat), k < n →
    (seqRun s n).getD k 0 = s.getD 0 + k + 1 := by
  intro n
  induction n with
  | zero => intro s k h; omega
  | succ n ih =>
    intro s k h
    cases k with
    | zero => cases s <;> simp [seqRun, seqNext]
    | succ k =>
      have h2 := ih (some (s.getD 0 + 1)) k (by omega)
      cases s <;> simp [seqRun, seqNext] at h2 ⊢ <;> omega

lemma dec_ltb_iff (x y : Dec) : Dec.ltb x y = true ↔ x.val < y.val := by
  unfold Dec.ltb Dec.val
  rw [decide_eq_true_eq,
    div_lt_div_iff₀ (by positivity) (by positivity)]
  constructor
  · intro h
    exact_mod_cast h
  · intro h
    exact_mod_cast h

lemma dec_sub_val (x y : Dec) : (Dec.sub x y).val = x.val - y.val := by
  unfold Dec.sub Dec.val
  have h10 : (10 : ℚ) ≠ 0 := by norm_num
  have ex : (10 : ℚ) ^ max x.scale y.scale
      = 10 ^ x.scale * 10 ^ (max x.scale y.scale - x.scale) := by
    rw [← pow_add]
    congr 1
    omega
  have ey : (10 : ℚ) ^ max x.scale y.scale
      = 10 ^ y.scale * 10 ^ (max x.scale y.scale - y.scale) := by
    rw [← pow_add]
    congr 1
    omega
  push_cast
  rw [sub_div]
  congr 1
  · rw [ex, mul_div_mul_right _ _ (pow_ne_zero _ h10)]
  · rw [ey, mul_div_mul_right _ _ (pow_ne_zero _ h10)]

/-! ## Claim theorems -/

/-- C1 (counterexample): with the fixed codec declared for 2-byte RowIDs, the
non-empty 1-byte RowID `[1]` is within the declared length, yet stripping the
built index key returns the zero-padded `[1, 0]`, not `[1]`: the claimed
round-trip fails for RowIDs shorter than the declared fixed length. -/
theorem fixCodec_roundtrip_cex :
    ([1] : List Nat) ≠ [] ∧ ([1] : List Nat).length ≤ 2 ∧
    (FixBuildIndexKey 2 [] [1]).bind (FixStripRowID 2) = some [1, 0] ∧
    (FixBuildIndexKey 2 [] [1]).bind (FixStripRowID 2) ≠ some [1] := by
  refine ⟨by decide, by decide, by rfl, by decide⟩

/-- C1 (amended): for a non-empty RowID, stripping the built index key
returns exactly the RowID, for the dynamic codec whenever the searchable
key is at most 255 bytes, and for the fixed codec whenever the RowID
length equals the declared fixed length. -/
theorem indexKeyCodec_roundtrip (searchableKey rowID : List Nat) (fixLen : Nat) :
    (rowID ≠ [] → searchableKey.length ≤ 255 →
      (Max255BuildIndexKey searchableKey rowID).bind Max255StripRowID = some rowID) ∧
    (rowID ≠ [] → rowID.length = fixLen →
      (FixBuildIndexKey fixLen searchableKey rowID).bind (FixStripRowID fixLen)
        = some rowID) := by
  constructor
  · intro hne hle
    have h0 : ¬rowID.length = 0 := by
      simpa [List.length_eq_zero] using hne
    have h1 : ¬searchableKey.length > 255 := by omega
    simp only [Max255BuildIndexKey, AddLengthPrefix, if_neg h0, if_neg h1]
    show Max255StripRowID (searchableKey.length :: (searchableKey ++ rowID)) = some rowID
    simp only [Max255StripRowID]
    rw [if_pos (by simp), List.drop_left]
  · intro hne hfix
    have h0 : ¬rowID.length = 0 := by
      simpa [List.length_eq_zero] using hne
    have h2 : ¬rowID.length > fixLen := by omega
    have hrep : List.replicate (fixLen - rowID.length) (0 : Nat) = [] := by
      rw [hfix]
      simp
    simp only [FixBuildIndexKey, if_neg h0, if_neg h2, hrep, List.append_nil]
    show FixStripRowID fixLen (searchableKey ++ rowID) = some rowID
    simp only [FixStripRowID]
    rw [if_pos (by simp; omega)]
    have hlen2 : (searchableKey ++ rowID).length - fixLen = searchableKey.length := by
      simp [List.length_append]
      omega
    rw [hlen2, List.drop_left]

/-- C1 witness at searchable key `[5]`, RowID `[9]`, fixed length 1. -/
theorem indexKeyCodec_roundtrip_witness :
    ([9] : List Nat) ≠ [] ∧ ([5] : List Nat).length ≤ 255 ∧ ([9] : List Nat).length = 1 ∧
    (Max255BuildIndexKey [5] [9]).bind Max255StripRowID = some [9] ∧
    (FixBuildIndexKey 1 [5] [9]).bind (FixStripRowID 1) = some [9] := by
  refine ⟨by decide, by decide, by decide, ?_, ?_⟩
  · exact (indexKeyCodec_roundtrip [5] [9] 1).1 (by decide) (by decide)
  · exact (indexKeyCodec_roundtrip [5] [9] 1).2 (by decide) (by decide)

/-- C2: `buildPrimaryKey` evaluated at a single `uint32` field: the type
switch of `primaryKeyFieldBytes` has no `uint32` case, so the encoding
reaches the `default` branch and panics, although the function's own doc
comment promises a 4-byte big-endian encoding for such integers. -/
theorem primaryKey_uint32_fatal :
    buildPrimaryKey [PKField.u32 7] = none ∧ primaryKeyFieldBytes (PKField.u32 7) = none := by
  exact ⟨rfl, rfl⟩

/-- C6: for payloads of at most 255 bytes, ` AddLengthPrefix` returns the
single length byte followed by the payload unchanged; for longer payloads
it is a fatal invariant violation (panic), so the panic branch is
unreachable under the length-bound precondition. -/
theorem addLengthPfx_spec (b : List Nat) :
    (b.length ≤ 255 → AddLengthPrefix b = some (b.length :: b)) ∧
    (b.length > 255 → AddLengthPrefix b = none) := by
  refine ⟨fun h => ?_, fun h => ?_⟩
  · show (if b.length > 255 then none else some (b.length :: b)) = some (b.length :: b)
    rw [if_neg (by omega)]
  · show (if b.length > 255 then none else some (b.length :: b)) = none
    rw [if_pos h]

/-- C6 witness at the 2-byte payload `[7, 8]`. -/
theorem addLengthPfx_spec_witness :
    ([7, 8] : List Nat).length ≤ 255 ∧ AddLengthPrefix [7, 8] = some [2, 7, 8] :=
  ⟨by decide, (addLengthPfx_spec [7, 8]).1 (by decide)⟩

/-- C8: every `Sequence.next()` call persists the value it returns, and
within one run the values returned by `n` successive calls are strictly
increasing with no repeats. -/
theorem sequence_next_monotonic :
    (∀ s : Option Nat, (seqNext s).2 = some (seqNext s).1) ∧
    (∀ (s : Option Nat) (n i j : Nat), i < j → j < n →
      (seqRun s n).getD i 0 < (seqRun s n).getD j 0) := by
  constructor
  · intro s
    rfl
  · intro s n i j hij hjn
    rw [seqRun_getD n s i (by omega), seqRun_getD n s j hjn]
    omega

/-- C8 witness: three calls on an initially absent sequence. -/
theorem sequence_next_monotonic_witness :
    (0 : Nat) < 2 ∧ (2 : Nat) < 3 ∧ (seqRun none 3).getD 0 0 < (seqRun none 3).getD 2 0 :=
  ⟨by decide, by decide, sequence_next_monotonic.2 none 3 0 2 (by decide) (by decide)⟩

/-- C9: the seventeen single-byte storage prefixes declared for the group
module's tables, sequences and secondary indexes are pairwise distinct. -/
theorem groupModulePrefixes_distinct : groupModulePrefixes.Nodup := by
  decide

/-- C10: when the object's concrete type differs from the table's declared
model type, `PrimaryKeyTable.Contains` returns `false` (no panic, no
error), regardless of which row keys are present in the table. -/
theorem contains_wrong_type (modelType objType : Nat) (rows : List (List Nat))
    (objKey : List Nat) (h : objType ≠ modelType) :
    Contains modelType rows objType objKey = false := by
  simp [Contains, assertCorrectType, h]

/-- C10 witness: the table does hold a row under the object's key bytes,
yet `Contains` is `false` because the type differs. -/
theorem contains_wrong_type_witness :
    (1 : Nat) ≠ 0 ∧ ([[7]] : List (List Nat)).contains [7] = true ∧
    Contains 0 [[7]] 1 [7] = false :=
  ⟨by decide, by decide, contains_wrong_type 0 1 [[7]] [7] (by decide)⟩

/-- C5: two field tuples equal except in one `uint64` field encode, via
`buildPrimaryKey`, to keys whose byte-lexicographic order matches the
numeric order of that field. -/
theorem primaryKey_order (pre suf : List PKField) (a b : Nat) (ka kb : List Nat)
    (hab : a < b) (hb : b < 2 ^ 64)
    (hka : buildPrimaryKey (pre ++ PKField.u64 a :: suf) = some ka)
    (hkb : buildPrimaryKey (pre ++ PKField.u64 b :: suf) = some kb) :
    lexLt ka kb = true ∧ lexLt kb ka = false := by
  rw [bpk_append, bpk_cons] at hka hkb
  cases hpre : buildPrimaryKey pre with
  | none =>
    rw [hpre] at hka
    simp at hka
  | some pa =>
    cases hsuf : buildPrimaryKey suf with
    | none =>
      rw [hpre, hsuf] at hka
      simp [primaryKeyFieldBytes] at hka
    | some ps =>
      rw [hpre, hsuf] at hka hkb
      simp only [primaryKeyFieldBytes, EncodeSequence] at hka hkb
      simp at hka hkb
      have h1 : lexLt (pa ++ (bigEndian8 a ++ ps)) (pa ++ (bigEndian8 b ++ ps)) = true := by
        rw [lexLt_append_same]
        exact lexLt_append_of_lt ps ps (by simp [bigEndian8]) (bigEndian8_mono hab hb)
      rw [← hka, ← hkb]
      exact ⟨h1, lexLt_asymm h1⟩

/-- C5 witness: single-field tuples with the integer field 0 versus 1. -/
theorem primaryKey_order_witness :
    (0 : Nat) < 1 ∧ (1 : Nat) < 2 ^ 64 ∧
    buildPrimaryKey [PKField.u64 0] = some [0, 0, 0, 0, 0, 0, 0, 0] ∧
    buildPrimaryKey [PKField.u64 1] = some [0, 0, 0, 0, 0, 0, 0, 1] ∧
    lexLt [0, 0, 0, 0, 0, 0, 0, 0] [0, 0, 0, 0, 0, 0, 0, 1] = true ∧
    lexLt [0, 0, 0, 0, 0, 0, 0, 1] [0, 0, 0, 0, 0, 0, 0, 0] = false := by
  have h := primaryKey_order [] [] 0 1 [0, 0, 0, 0, 0, 0, 0, 0] [0, 0, 0, 0, 0, 0, 0, 1]
    (by decide) (by decide) (by decide) (by decide)
  exact ⟨by decide, by decide, by decide, by decide, h.1, h.2⟩

/-- C4 (counterexample): the empty byte-string field and the empty string
field are distinct valid field lists, yet both encode to the single byte
`[0]`: `buildPrimaryKey` is not injective across field types. -/
theorem primaryKey_inj_cex :
    validField (PKField.bytes []) = true ∧ validField (PKField.str []) = true ∧
    buildPrimaryKey [PKField.bytes []] = some [0] ∧
    buildPrimaryKey [PKField.str []] = some [0] ∧
    [PKField.bytes []] ≠ [PKField.str []] := by
  refine ⟨by decide, by decide, by decide, by decide, by decide⟩

/-- C4 (amended): `buildPrimaryKey` is injective on valid field lists with
the same sequence of runtime-type kinds (byte strings of at most 255
bytes, NUL-free strings, unsigned 64-bit integers). -/
theorem buildPrimaryKey_inj : ∀ (f1 f2 : List PKField) (k : List Nat),
    f1.map fieldKind = f2.map fieldKind →
    (∀ x ∈ f1, validField x = true) → (∀ x ∈ f2, validField x = true) →
    buildPrimaryKey f1 = some k → buildPrimaryKey f2 = some k → f1 = f2 := by
  intro f1
  induction f1 with
  | nil =>
    intro f2 k hk hv1 hv2 h1 h2
    cases f2 with
    | nil => rfl
    | cons g gs => simp at hk
  | cons f fs ih =>
    intro f2 k hk hv1 hv2 h1 h2
    cases f2 with
    | nil => simp at hk
    | cons g gs =>
      simp only [List.map_cons, List.cons.injEq] at hk
      obtain ⟨hkind, hkinds⟩ := hk
      obtain ⟨fb, rest1, hfb, hrest1, hk1⟩ := bpk_cons_some h1
      obtain ⟨gb, rest2, hgb, hrest2, hk2⟩ := bpk_cons_some h2
      have hv1f := hv1 f (List.mem_cons_self f fs)
      have hv2g := hv2 g (List.mem_cons_self g gs)
      have hcat : fb ++ rest1 = gb ++ rest2 := by rw [← hk1, ← hk2]
      have hfields : f = g ∧ rest1 = rest2 := by
        cases f with
        | bytes b1 =>
          cases g with
          | bytes b2 =>
            have hb1 : b1.length ≤ 255 := by simpa [validField] using hv1f
            have hb2 : b2.length ≤ 255 := by simpa [validField] using hv2g
            have e1 : fb = b1.length :: b1 := by
              have : AddLengthPrefix b1 = some (b1.length :: b1) := by
                simp [ AddLengthPrefix]
                omega
              rw [primaryKeyFieldBytes] at hfb
              rw [this] at hfb
              exact (Option.some.injEq _ _ ▸ hfb).symm
            have e2 : gb = b2.length :: b2 := by
              have : AddLengthPrefix b2 = some (b2.length :: b2) := by
                simp [ AddLengthPrefix]
                omega
              rw [primaryKeyFieldBytes] at hgb
              rw [this] at hgb
              exact (Option.some.injEq _ _ ▸ hgb).symm
            rw [e1, e2] at hcat
            simp only [List.cons_append, List.cons.injEq] at hcat
            obtain ⟨hlen, htail⟩ := hcat
            have := List.append_inj htail hlen
            exact ⟨by rw [this.1], this.2⟩
          | str s2 => simp [fieldKind] at hkind
          | u64 v2 => simp [fieldKind] at hkind
          | u32 v2 => simp [fieldKind] at hkind
          | other => simp [fieldKind] at hkind
        | str s1 =>
          cases g with
          | bytes b2 => simp [fieldKind] at hkind
          | str s2 =>
            have hs1 : (0 : Nat) ∉ s1 := by
              have := hv1f
              simp [validField] at this
              simpa using this
            have hs2 : (0 : Nat) ∉ s2 := by
              have := hv2g
              simp [validField] at this
              simpa using this
            have e1 : fb = s1 ++ [0] := by
              rw [primaryKeyFieldBytes, NullTerminatedBytes] at hfb
              exact (Option.some.injEq _ _ ▸ hfb).symm
            have e2 : gb = s2 ++ [0] := by
              rw [primaryKeyFieldBytes, NullTerminatedBytes] at hgb
              exact (Option.some.injEq _ _ ▸ hgb).symm
            rw [e1, e2] at hcat
            have hcat2 : s1 ++ 0 :: rest1 = s2 ++ 0 :: rest2 := by
              simpa [List.append_assoc] using hcat
            have := nullTerminated_inj s1 s2 rest1 rest2 hs1 hs2 hcat2
            exact ⟨by rw [this.1], this.2⟩
          | u64 v2 => simp [fieldKind] at hkind
          | u32 v2 => simp [fieldKind] at hkind
          | other => simp [fieldKind] at hkind
        | u64 v1 =>
          cases g with
          | bytes b2 => simp [fieldKind] at hkind
          | str s2 => simp [fieldKind] at hkind
          | u64 v2 =>
            have hb1 : v1 < 2 ^ 64 := by simpa [validField] using hv1f
            have hb2 : v2 < 2 ^ 64 := by simpa [validField] using hv2g
            have e1 : fb = bigEndian8 v1 := by
              rw [primaryKeyFieldBytes, EncodeSequence] at hfb
              exact (Option.some.injEq _ _ ▸ hfb).symm
            have e2 : gb = bigEndian8 v2 := by
              rw [primaryKeyFieldBytes, EncodeSequence] at hgb
              exact (Option.some.injEq _ _ ▸ hgb).symm
            rw [e1, e2] at hcat
            have := List.append_inj hcat (by simp [bigEndian8])
            exact ⟨by rw [bigEndian8_inj hb1 hb2 this.1], this.2⟩
          | u32 v2 => simp [fieldKind] at hkind
          | other => simp [fieldKind] at hkind
        | u32 v1 => simp [validField] at hv1f
        | other => simp [validField] at hv1f
      have htail : fs = gs := by
        apply ih gs rest1 hkinds (fun x hx => hv1 x (List.mem_cons_of_mem f hx))
          (fun x hx => hv2 x (List.mem_cons_of_mem g hx)) hrest1
        rw [hfields.2]
        exact hrest2
      rw [hfields.1, htail]

/-- C4 witness at the single NUL-free string field `"a"`. -/
theorem buildPrimaryKey_inj_witness :
    [PKField.str [97]].map fieldKind = [PKField.str [97]].map fieldKind ∧
    (∀ x ∈ [PKField.str [97]], validField x = true) ∧
    buildPrimaryKey [PKField.str [97]] = some [97, 0] ∧
    [PKField.str [97]] = [PKField.str [97]] := by
  refine ⟨rfl, by decide, by decide, ?_⟩
  exact buildPrimaryKey_inj [PKField.str [97]] [PKField.str [97]] [97, 0] rfl
    (by decide) (by decide) (by decide) (by decide)

/-- C3: for non-negative decimals, `SafeSubBalance` returns the exact
difference when the first operand is at least the second, and fails with
the insufficient-balance error (a distinguished error value) when it is
smaller; in particular on the parsed values "5" and "2" it returns a value
equal to parsed "3", and on "2" and "5" it returns the insufficient-balance
error. -/
theorem safeSubBalance_spec :
    (∀ x y : Dec, 0 ≤ x.val → 0 ≤ y.val →
      (y.val ≤ x.val →
        SafeSubBalance x y = .ok (Dec.sub x y) ∧ (Dec.sub x y).val = x.val - y.val) ∧
      (x.val < y.val → SafeSubBalance x y = .error .insufficientBalance)) ∧
    (∃ a b c r : Dec, NewDecFromString "5" = some a ∧ NewDecFromString "2" = some b ∧
      NewDecFromString "3" = some c ∧ SafeSubBalance a b = .ok r ∧
      Dec.isEqual r c = true ∧ SafeSubBalance b a = .error .insufficientBalance) := by
  constructor
  · intro x y hx hy
    constructor
    · intro hle
      have hltb : Dec.ltb x y = false := by
        cases h2 : Dec.ltb x y with
        | false => rfl
        | true => exact absurd ((dec_ltb_iff x y).mp h2) (not_lt.mpr hle)
      exact ⟨by simp [SafeSubBalance, hltb], dec_sub_val x y⟩
    · intro hlt
      have hltb : Dec.ltb x y = true := (dec_ltb_iff x y).mpr hlt
      simp [SafeSubBalance, hltb]
  · exact ⟨⟨5, 0⟩, ⟨2, 0⟩, ⟨3, 0⟩, ⟨3, 0⟩, by decide, by decide, by decide, by rfl,
      by decide, by rfl⟩

/-- C3 witness: the general clause applied at the concrete decimals 5 and 2. -/
theorem safeSubBalance_spec_witness :
    (0 : ℚ) ≤ Dec.val ⟨5, 0⟩ ∧ (0 : ℚ) ≤ Dec.val ⟨2, 0⟩ ∧
    Dec.val ⟨2, 0⟩ ≤ Dec.val ⟨5, 0⟩ ∧
    SafeSubBalance ⟨5, 0⟩ ⟨2, 0⟩ = .ok (Dec.sub ⟨5, 0⟩ ⟨2, 0⟩) ∧
    (Dec.sub ⟨5, 0⟩ ⟨2, 0⟩).val = Dec.val ⟨5, 0⟩ - Dec.val ⟨2, 0⟩ := by
  have h5 : (0 : ℚ) ≤ Dec.val ⟨5, 0⟩ := by norm_num [Dec.val]
  have h2 : (0 : ℚ) ≤ Dec.val ⟨2, 0⟩ := by norm_num [Dec.val]
  have hle : Dec.val ⟨2, 0⟩ ≤ Dec.val ⟨5, 0⟩ := by norm_num [Dec.val]
  have h := (safeSubBalance_spec.1 ⟨5, 0⟩ ⟨2, 0⟩ h5 h2).1 hle
  exact ⟨h5, h2, hle, h.1, h.2⟩

/-- C7: the decimal parsed from "1.15" plus the decimal parsed from "2.34"
is numerically equal to the decimal parsed from "3.49" (equality on
numeric value, and also on the exact rational values). -/
theorem dec_add_concrete :
    ∃ a b c : Dec, NewDecFromString "1.15" = some a ∧ NewDecFromString "2.34" = some b ∧
      NewDecFromString "3.49" = some c ∧ Dec.isEqual (Dec.add a b) c = true ∧
      (Dec.add a b).val = c.val := by
  refine ⟨⟨115, 2⟩, ⟨234, 2⟩, ⟨349, 2⟩, by decide, by decide, by decide, by decide, ?_⟩
  norm_num [Dec.add, Dec.val]

end RegenLedger
